import Mathlib

set_option maxRecDepth 10000

/-!
Verification of the komodo-solomining work pipeline.

Each section embeds one source file of the repository as executable Lean
definitions (Node `Buffer`s become `List Nat` of bytes, JS strings become
`String`, JS numbers become `Nat`/`Int`/`Rat` depending on use, fallible
operations return `Option`).  Theorems about the claims follow at the end.
-/

namespace Solo

/-! ## Bytes and hex strings (shared primitives)

A Node `Buffer` is a `List Nat` whose entries are bytes (`< 256`).
`Buffer.from(s, 'hex')` decodes hex pairs and stops at the first invalid
pair; `buf.toString('hex')` renders lowercase hex. -/

/-- Value of one hex digit character, `none` when the character is not a
hex digit. -/
def hexDigit? (c : Char) : Option Nat :=
  if 48 ≤ c.toNat ∧ c.toNat ≤ 57 then some (c.toNat - 48)
  else if 97 ≤ c.toNat ∧ c.toNat ≤ 102 then some (c.toNat - 97 + 10)
  else if 65 ≤ c.toNat ∧ c.toNat ≤ 70 then some (c.toNat - 65 + 10)
  else none

/-- `Buffer.from(hex, 'hex')` on a character list: decode pairs, stopping at
the first pair that is not two hex digits (Node semantics). -/
def bytesFromHexChars : List Char → List Nat
  | c1 :: c2 :: rest =>
    match hexDigit? c1, hexDigit? c2 with
    | some hi, some lo => (16 * hi + lo) :: bytesFromHexChars rest
    | _, _ => []
  | _ => []

/-- `Buffer.from(s, 'hex')`. -/
def bytesFromHex (s : String) : List Nat := bytesFromHexChars s.data

/-- Lowercase hex digit character for a nibble. -/
def hexChar (n : Nat) : Char :=
  if n < 10 then Char.ofNat ('0'.toNat + n) else Char.ofNat ('a'.toNat + (n - 10))

/-- The two lowercase hex characters of one byte. -/
def byteToHexChars (b : Nat) : List Char := [hexChar (b / 16), hexChar (b % 16)]

/-- `buf.toString('hex')`. -/
def bytesToHex (bs : List Nat) : String := ⟨(bs.map byteToHexChars).flatten⟩

/-- `util.reverseBuffer`: byte-order reversal. -/
def reverseBuffer (b : List Nat) : List Nat := b.reverse

/-- `util.reverseHex`: hex → buffer → reverse → hex. -/
def reverseHex (s : String) : String := bytesToHex (reverseBuffer (bytesFromHex s))

/-- JS `String.prototype.toLowerCase` restricted to the ASCII strings this
code handles. -/
def lcStr (s : String) : String := s.map Char.toLower

/-- JS `Number.prototype.toString(16)` for a natural number: lowercase hex
characters without leading zeros. -/
def jsHexChars (n : Nat) : List Char := Nat.toDigits 16 n

/-- Zero-pad a hex character list on the left to even length, as
`blockTemplate.js` does before `Buffer.from(txCount, 'hex')`. -/
def evenHexChars (n : Nat) : List Char :=
  let h := jsHexChars n
  if h.length % 2 = 1 then '0' :: h else h

/-- Big-endian bytes of `n` in `k` byte positions. -/
def beBytes : Nat → Nat → List Nat
  | 0, _ => []
  | k + 1, n => ((n >>> (8 * k)) &&& 255) :: beBytes k n

/-- Value of a big-endian byte list. -/
def beValue (bs : List Nat) : Nat := bs.foldl (fun acc b => 256 * acc + b) 0

/-- Value of a little-endian byte list (`bignum.fromBuffer` with
`endian: 'little'`). -/
def leValue (bs : List Nat) : Nat := beValue bs.reverse

/-- `parseInt(s, 16)` on a string of hex digits: `none` for the empty
string (JS `NaN`); otherwise the value of the longest valid prefix. -/
def parseHexNat : List Char → Nat → Nat
  | c :: rest, acc =>
    match hexDigit? c with
    | some d => parseHexNat rest (16 * acc + d)
    | none => acc
  | [], acc => acc

/-- `parseInt(s, 16)` returning `none` when the result would be `NaN`
(empty input or no leading hex digit). -/
def parseInt16? (s : String) : Option Nat :=
  match s.data with
  | [] => none
  | c :: _ => if (hexDigit? c).isSome then some (parseHexNat s.data 0) else none

/-! ## `lib/pool/helpers/util.js` — packing and varints -/

/-- `util.packUInt16LE`: `Buffer.writeUInt16LE` throws a `RangeError`
outside `0..0xffff`. -/
def packUInt16LE (n : Nat) : Option (List Nat) :=
  if n ≤ 0xffff then some [n % 256, n / 256] else none

/-- `util.packUInt32LE`: `Buffer.writeUInt32LE` throws a `RangeError`
outside `0..0xffffffff`. -/
def packUInt32LE (n : Nat) : Option (List Nat) :=
  if n ≤ 0xffffffff then
    some [n % 256, n / 256 % 256, n / 65536 % 256, n / 16777216 % 256]
  else none

/-- `util.packUInt32BE`: `Buffer.writeUInt32BE` throws a `RangeError`
outside `0..0xffffffff`. -/
def packUInt32BE (n : Nat) : Option (List Nat) :=
  if n ≤ 0xffffffff then
    some [n / 16777216 % 256, n / 65536 % 256, n / 256 % 256, n % 256]
  else none

/-- `util.varIntBuffer`.  The final branch writes the value through
`packUInt16LE` into a 9-byte zeroed buffer, so for `n ≥ 2^32` (hence
`n > 0xffff`) it throws. -/
def varIntBuffer (n : Nat) : Option (List Nat) :=
  if n < 0xfd then some [n]
  else if n ≤ 0xffff then (packUInt16LE n).map (fun bs => 0xfd :: bs)
  else if n ≤ 0xffffffff then (packUInt32LE n).map (fun bs => 0xfe :: bs)
  else (packUInt16LE n).map (fun bs => 0xff :: (bs ++ List.replicate 6 0))

/-- Decoder for the Bitcoin varint convention quoted by the spec
(`0x00–0xFC` → 1 byte; `0xFD` + uint16 LE; `0xFE` + uint32 LE; `0xFF` +
uint64 LE), demanding the exact advertised length. -/
def decodeVarInt (bs : List Nat) : Option Nat :=
  match bs with
  | [b] => if b < 0xfd then some b else none
  | [p, a, b] => if p = 0xfd then some (a + 256 * b) else none
  | [p, a, b, c, d] =>
    if p = 0xfe then some (a + 256 * b + 65536 * c + 16777216 * d) else none
  | [p, a, b, c, d, e, f, g, h] =>
    if p = 0xff then
      some (a + 256 * b + 65536 * c + 16777216 * d + 4294967296 * e +
        1099511627776 * f + 281474976710656 * g + 72057594037927936 * h)
    else none
  | _ => none

/-- The byte length the Bitcoin varint convention prescribes for `n`. -/
def varIntConventionLength (n : Nat) : Nat :=
  if n < 0xfd then 1 else if n < 0x10000 then 3
  else if n < 0x100000000 then 5 else 9

/-! ## SHA-256 (Node `crypto.createHash('sha256')`)

The hash both `util.sha256d` and the merkle builder's `doubleHash` call
out to.  Words are naturals kept below `2^32` with explicit masking. -/

/-- Truncate to a 32-bit word. -/
def w32 (n : Nat) : Nat := n &&& 0xffffffff

/-- 32-bit right rotation. -/
def rotr (k x : Nat) : Nat := (x >>> k) ||| (w32 (x <<< (32 - k)))

def shaCh (x y z : Nat) : Nat := (x &&& y) ^^^ ((0xffffffff ^^^ x) &&& z)

def shaMaj (x y z : Nat) : Nat := (x &&& y) ^^^ (x &&& z) ^^^ (y &&& z)

def bigSigma0 (x : Nat) : Nat := rotr 2 x ^^^ rotr 13 x ^^^ rotr 22 x

def bigSigma1 (x : Nat) : Nat := rotr 6 x ^^^ rotr 11 x ^^^ rotr 25 x

def smallSigma0 (x : Nat) : Nat := rotr 7 x ^^^ rotr 18 x ^^^ (x >>> 3)

def smallSigma1 (x : Nat) : Nat := rotr 17 x ^^^ rotr 19 x ^^^ (x >>> 10)

/-- Group bytes into big-endian 32-bit words (input length a multiple
of 4 after padding). -/
def bytesToWords : List Nat → List Nat
  | a :: b :: c :: d :: rest =>
    ((a <<< 24) ||| (b <<< 16) ||| (c <<< 8) ||| d) :: bytesToWords rest
  | _ => []

/-- The 64 SHA-256 round constants, packed big-endian. -/
def shaKHex : String :=
  "428a2f9871374491b5c0fbcfe9b5dba53956c25b59f111f1923f82a4ab1c5ed5" ++
  "d807aa9812835b01243185be550c7dc372be5d7480deb1fe9bdc06a7c19bf174" ++
  "e49b69c1efbe47860fc19dc6240ca1cc2de92c6f4a7484aa5cb0a9dc76f988da" ++
  "983e5152a831c66db00327c8bf597fc7c6e00bf3d5a7914706ca635114292967" ++
  "27b70a852e1b21384d2c6dfc53380d13650a7354766a0abb81c2c92e92722c85" ++
  "a2bfe8a1a81a664bc24b8b70c76c51a3d192e819d6990624f40e3585106aa070" ++
  "19a4c1161e376c082748774c34b0bcb5391c0cb34ed8aa4a5b9cca4f682e6ff3" ++
  "748f82ee78a5636f84c878148cc7020890befffaa4506cebbef9a3f7c67178f2"

def shaK : List Nat := bytesToWords (bytesFromHex shaKHex)

/-- The initial hash value, packed big-endian. -/
def shaH0Hex : String :=
  "6a09e667bb67ae853c6ef372a54ff53a510e527f9b05688c1f83d9ab5be0cd19"

def shaH0 : List Nat := bytesToWords (bytesFromHex shaH0Hex)

/-- SHA-256 padding: append `0x80`, zeros to 56 mod 64, then the bit
length as 8 big-endian bytes. -/
def shaPad (msg : List Nat) : List Nat :=
  let len := msg.length
  let zeros := (64 + 56 - (len + 1) % 64) % 64
  msg ++ (0x80 :: List.replicate zeros 0) ++ beBytes 8 (8 * len)

/-- Split a word list into 16-word blocks (padding makes the length a
multiple of 16, so the ragged-tail arm is never reached). -/
def chunk16 : List Nat → List (List Nat)
  | a1 :: a2 :: a3 :: a4 :: a5 :: a6 :: a7 :: a8 ::
    a9 :: a10 :: a11 :: a12 :: a13 :: a14 :: a15 :: a16 :: rest =>
    [a1, a2, a3, a4, a5, a6, a7, a8, a9, a10, a11, a12, a13, a14, a15, a16] ::
      chunk16 rest
  | [] => []
  | l => [l]

/-- Extend a 16-word block with `k` further schedule words. -/
def extendW : List Nat → Nat → List Nat
  | ws, 0 => ws
  | ws, k + 1 =>
    let n := ws.length
    let w := w32 (smallSigma1 (ws.getD (n - 2) 0) + ws.getD (n - 7) 0 +
      smallSigma0 (ws.getD (n - 15) 0) + ws.getD (n - 16) 0)
    extendW (ws ++ [w]) k

/-- One SHA-256 round on the eight working variables. -/
def shaRound (st : List Nat) (kw : Nat × Nat) : List Nat :=
  match st with
  | [a, b, c, d, e, f, g, h] =>
    let t1 := w32 (h + bigSigma1 e + shaCh e f g + kw.1 + kw.2)
    let t2 := w32 (bigSigma0 a + shaMaj a b c)
    [w32 (t1 + t2), a, b, c, w32 (d + t1), e, f, g]
  | _ => st

/-- Compress one 16-word block into the chaining state. -/
def shaCompress (h : List Nat) (block : List Nat) : List Nat :=
  let ws := extendW block 48
  let fin := (shaK.zip ws).foldl shaRound h
  List.zipWith (fun x y => w32 (x + y)) h fin

/-- `crypto.createHash('sha256').update(msg).digest()`. -/
def sha256 (msg : List Nat) : List Nat :=
  let hfin := (chunk16 (bytesToWords (shaPad msg))).foldl shaCompress shaH0
  (hfin.map (beBytes 4)).flatten

/-- `util.sha256d` / `blockTemplate.js` `doubleHash`. -/
def sha256d (msg : List Nat) : List Nat := sha256 (sha256 msg)

/-! ## `lib/pool/blockchain/algoProperties.js` -/

/-- `algos.komodo.diff1`, the exact integer value of the constant the
algorithm table parses (JS stores its double approximation; the claims
never depend on the rounding). -/
def komodoDiff1 : Nat :=
  0x0f0f0f0f0f0f0f0f0f0f0f0f0f0f0f0f0f0f0f0f0f0f0f0f0f0f0f0f0f0f0f0f

/-! ## `lib/pool/blockchain/blockTemplate.js` — merkle root -/

/-- One pass of the pairing loop: concatenate each adjacent pair and
double-SHA-256 it (`for (let i = 0; i < hashes.length; i += 2)`). -/
def combinePairs : List (List Nat) → List (List Nat)
  | a :: b :: rest => sha256d (a ++ b) :: combinePairs rest
  | _ => []

/-- The `while (hashes.length > 1)` loop of `createMerkleRoot` with an
explicit iteration budget (each pass at least halves the list, so a
budget of the list length is ample; the budget keeps the recursion
structural and hence kernel-reducible). -/
def merkleLoopFuel : Nat → List (List Nat) → List Nat
  | 0, hashes => hashes.headD []
  | fuel + 1, hashes =>
    if hashes.length ≤ 1 then hashes.headD []
    else
      merkleLoopFuel fuel
        (combinePairs
          (if hashes.length % 2 ≠ 0 then hashes ++ [hashes.getLastD []] else hashes))

/-- The `while (hashes.length > 1)` loop of `createMerkleRoot`: when the
count is odd the last hash is duplicated, then all pairs are combined. -/
def merkleLoop (hashes : List (List Nat)) : List Nat :=
  merkleLoopFuel hashes.length hashes

/-- `createMerkleRoot(transactions, cBase)` from
`BlockTemplate.prototype.generateMerkleRoot`, over the transaction hash
strings and the coinbase hash string.  With no transactions it returns the
byte-reversed coinbase hash; otherwise the leaf list starts with the
coinbase hash **as delivered** followed by the byte-reversed transaction
hashes, and the loop result is returned reverse-endian. -/
def createMerkleRoot (txHashes : List String) (cBaseHash : String) : String :=
  if txHashes = [] then reverseHex cBaseHash
  else
    let hashes := bytesFromHex cBaseHash ::
      txHashes.map (fun tx => bytesFromHex (reverseHex tx))
    bytesToHex (reverseBuffer (merkleLoop hashes))

/-- Claim C5's algorithm, formalised from the spec sentence: leaves are
`[reverse(coinbaseHash), tx hashes byte-reversed]`; a singleton list is
the root as-is; otherwise the pairing loop runs and the result is
returned reverse-endian. -/
def merkleRootClaimed (txHashes : List String) (cBaseHash : String) : String :=
  let leaves := reverseBuffer (bytesFromHex cBaseHash) ::
    txHashes.map (fun tx => reverseBuffer (bytesFromHex tx))
  if leaves.length = 1 then bytesToHex (leaves.headD [])
  else bytesToHex (reverseBuffer (merkleLoop leaves))

/-- The amended description of the code: the leaf list is the coinbase
hash unreversed followed by the byte-reversed transaction hashes, the
pairing loop runs (a singleton passes through unchanged), and the result
is returned reverse-endian. -/
def merkleRootAmended (txHashes : List String) (cBaseHash : String) : String :=
  let leaves := bytesFromHex cBaseHash ::
    txHashes.map (fun tx => reverseBuffer (bytesFromHex tx))
  bytesToHex (reverseBuffer (merkleLoop leaves))

/-! ## `lib/pool/blockchain/blockTemplate.js` — template state -/

structure TxData where
  data : String
  hash : String
  fee : ℚ
  deriving DecidableEq

/-- The fields of a `getblocktemplate` result the embedded code reads. -/
structure RpcData where
  previousblockhash : String
  finalsaplingroothash : String
  bits : String
  curtime : Nat
  height : Nat
  version : Nat
  target : String
  transactions : List TxData
  miner : ℚ
  deriving DecidableEq

/-- A constructed `BlockTemplate`: the computed public fields plus the
private `submits` array used for duplicate detection. -/
structure Job where
  jobId : String
  rpc : RpcData
  target : Nat
  difficulty : ℚ
  prevHashReversed : String
  merkleRootReversed : String
  hashReserved : String
  submits : List String
  deriving DecidableEq

/-- The `BlockTemplate` constructor together with `generateMerkleRoot`.
`genTxHash` is the hash of the generation transaction produced by the
external `bitgo-utxo-lib` builder, which is out of scope and passed in. -/
def mkJob (jobId : String) (rpc : RpcData) (genTxHash : String) : Job :=
  let target := parseHexNat rpc.target.data 0
  { jobId := jobId
    rpc := rpc
    target := target
    difficulty := (komodoDiff1 : ℚ) / (target : ℚ)
    prevHashReversed := reverseHex rpc.previousblockhash
    merkleRootReversed :=
      reverseHex (createMerkleRoot (rpc.transactions.map TxData.hash) genTxHash)
    hashReserved := reverseHex rpc.finalsaplingroothash
    submits := [] }

/-- `registerSubmit(header, soln)`: lowercase the concatenation of the two
arguments, report whether it was new, and record it. -/
def registerSubmit (submits : List String) (header soln : String) :
    Bool × List String :=
  let submission := lcStr (header ++ soln)
  if submission ∈ submits then (false, submits)
  else (true, submits ++ [submission])

/-- `buffer.write(hex, pos, len, 'hex')` into a zero-filled region of
`len` bytes: at most `len` bytes are written, the rest stay zero. -/
def writeHexField (len : Nat) (s : String) : List Nat :=
  let bs := (bytesFromHex s).take len
  bs ++ List.replicate (len - bs.length) 0

/-- `writeUInt32LE` into the 140-byte header (template versions are
32-bit). -/
def leBytes4 (n : Nat) : List Nat :=
  [n % 256, n / 256 % 256, n / 65536 % 256, n / 16777216 % 256]

/-- `BlockTemplate.prototype.generateBlockHeader`. -/
def generateBlockHeader (j : Job) (nTime nonce : String) : List Nat :=
  leBytes4 j.rpc.version ++
  writeHexField 32 j.prevHashReversed ++
  writeHexField 32 j.merkleRootReversed ++
  writeHexField 32 j.hashReserved ++
  writeHexField 4 nTime ++
  writeHexField 4 (reverseHex j.rpc.bits) ++
  writeHexField 32 nonce

/-- The transaction-count varint of
`BlockTemplate.prototype.generateSerializedBlock`: one raw byte for
counts up to `0x7f`, `0xFD` followed by the count's big-endian hex bytes
up to `0x7fff`, and undefined (a crash in `Buffer.concat`) beyond. -/
def blockTxCountVarInt (txCount : Nat) : Option (List Nat) :=
  if txCount ≤ 0x7f then some (bytesFromHexChars (evenHexChars txCount))
  else if txCount ≤ 0x7fff then
    some (0xfd :: bytesFromHexChars (evenHexChars txCount))
  else none

/-- `BlockTemplate.prototype.generateSerializedBlock`. -/
def generateSerializedBlock (j : Job) (genTx : String) (header soln : List Nat) :
    Option (List Nat) :=
  let txCount := j.rpc.transactions.length + 1
  (blockTxCountVarInt txCount).map (fun vi =>
    header ++ soln ++ vi ++ bytesFromHex genTx ++
    (if txCount > 1 then (j.rpc.transactions.map (fun t => bytesFromHex t.data)).flatten
     else []))

/-! ## `lib/pool/jobManager.js` — counters -/

/-- JS `ToInt32`: reduce modulo `2^32` into `[-2^31, 2^31)`. -/
def toInt32 (z : ℤ) : ℤ :=
  let m := z % 4294967296
  if m < 2147483648 then m else m - 4294967296

/-- `instanceId << 27` in JS: both operand coercion and the shift result
are 32-bit signed. -/
def jsShl27 (z : ℤ) : ℤ := toInt32 (toInt32 z * 134217728)

/-- The initial value of `ExtraNonceCounter.counter`. -/
def extraNonceSeed (instanceId : ℤ) : ℤ := jsShl27 instanceId

/-- The value returned by the `n`-th call (0-based) of
`ExtraNonceCounter.next()`: `packUInt32BE(Math.abs(counter++))` rendered
as hex.  The counter itself advances exactly, JS numbers being precise
far beyond the first `2^27` increments. -/
def extraNonceAt (instanceId : ℤ) (n : Nat) : Option String :=
  (packUInt32BE (Int.natAbs (extraNonceSeed instanceId + n))).map bytesToHex

/-- `JobCounter.next()`'s effect on the stored counter. -/
def jobCounterNext (c : Nat) : Nat :=
  let c1 := c + 1
  if c1 % 0xffffffffff = 0 then 1 else c1

/-- `JobCounter.cur()`: the counter as a hex string. -/
def jobCounterCur (c : Nat) : String := ⟨jsHexChars c⟩

/-! ## `lib/pool/jobManager.js` — template lifecycle -/

structure JMState where
  currentJob : Option Job
  validJobs : List (String × Job)
  jobCounter : Nat
  deriving DecidableEq

inductive JMEvent where
  | newBlock (j : Job)
  | updatedBlock (j : Job)
  deriving DecidableEq

/-- JS object property assignment `validJobs[id] = j`. -/
def setJob : List (String × Job) → String → Job → List (String × Job)
  | [], id, j => [(id, j)]
  | (k, v) :: rest, id, j =>
    if k = id then (k, j) :: rest else (k, v) :: setJob rest id j

/-- JS object property read `validJobs[id]`. -/
def findJob : List (String × Job) → String → Option Job
  | [], _ => none
  | (k, v) :: rest, id => if k = id then some v else findJob rest id

/-- `JobManager.updateCurrentJob`: build a template under a fresh job id,
make it current, emit `updatedBlock`, record it in the valid-jobs map. -/
def updateCurrentJob (gen : String) (st : JMState) (rpc : RpcData) :
    JMState × List JMEvent :=
  let c := jobCounterNext st.jobCounter
  let tmp := mkJob (jobCounterCur c) rpc gen
  ({ currentJob := some tmp
     validJobs := setJob st.validJobs tmp.jobId tmp
     jobCounter := c },
   [JMEvent.updatedBlock tmp])

/-- `JobManager.processTemplate`.  Returns the "new block processed"
boolean, the successor state and the emitted events.  `gen` is the
externally built generation-transaction hash (see `mkJob`). -/
def processTemplate (gen : String) (st : JMState) (rpc : RpcData) :
    Bool × JMState × List JMEvent :=
  let c1 := jobCounterNext st.jobCounter
  let tmp := mkJob (jobCounterCur c1) rpc gen
  match st.currentJob with
  | none =>
    -- `newDiff` and `newBlock` are both true; the three `!newBlock`
    -- guards fail and control reaches the new-block tail.
    (true,
     { currentJob := some tmp, validJobs := [(tmp.jobId, tmp)], jobCounter := c1 },
     [JMEvent.newBlock tmp])
  | some cur =>
    let newDiff := rpc.target ≠ cur.rpc.target
    let newBlock := rpc.height ≠ cur.rpc.height
    if ¬newBlock ∧ newDiff then
      -- in-place difficulty update; `updateCurrentJob` draws a second
      -- job id from the counter
      let (st2, evs) := updateCurrentJob gen { st with jobCounter := c1 } rpc
      (false, st2, evs)
    else if ¬newBlock ∧ rpc.previousblockhash ≠ cur.rpc.previousblockhash ∧
        rpc.height < cur.rpc.height then
      -- the stale-notification drop; under `¬newBlock` the heights are
      -- equal, so this branch cannot be taken
      (false, { st with jobCounter := c1 }, [])
    else if ¬newBlock then
      let (st2, evs) := updateCurrentJob gen { st with jobCounter := c1 } rpc
      (false, st2, evs)
    else
      (true,
       { currentJob := some tmp, validJobs := [(tmp.jobId, tmp)], jobCounter := c1 },
       [JMEvent.newBlock tmp])

/-! ## `lib/pool/jobManager.js` — share validation -/

/-- The arguments `handleSubmit` forwards into `processShare`. -/
structure ShareSubmission where
  jobId : String
  extraNonce1 : String
  extraNonce2 : String
  nTime : String
  nonce : String
  soln : String
  deriving DecidableEq

inductive ShareOutcome where
  | err (code : Nat) (msg : String)
  | accepted (blockHash : Option String)
  deriving DecidableEq

/-- `parseInt(reverseBuffer(Buffer.from(nTime, 'hex')).toString('hex'), 16)`,
`none` standing for `NaN`. -/
def parseNTimeInt (nTime : String) : Option Nat :=
  parseInt16? (bytesToHex (reverseBuffer (bytesFromHex nTime)))

/-- `JobManager.processShare`.  The `share` event payload mirrors the
returned data and is not modelled separately; the float `shareDiff` is
carried exactly as a rational and its textual rendering in the error 23
message is elided. -/
def processShare (st : JMState) (a : ShareSubmission)
    (previousDifficulty : Option ℚ) (difficulty : ℚ) (submitTime : Nat) :
    ShareOutcome × JMState :=
  match findJob st.validJobs a.jobId with
  | none => (.err 21 "job not found", st)
  | some job =>
    if job.jobId ≠ a.jobId then (.err 21 "job not found", st)
    else if a.nTime.length ≠ 8 then (.err 20 "incorrect size of ntime", st)
    else
      match parseNTimeInt a.nTime with
      | none => (.err 20 "invalid ntime", st)
      | some nTimeInt =>
        if nTimeInt < job.rpc.curtime ∨ submitTime + 7200 < nTimeInt then
          (.err 20 "ntime out of range", st)
        else if a.nonce.length ≠ 64 then (.err 20 "incorrect size of nonce", st)
        else if a.soln.length ≠ 2694 then (.err 20 "incorrect size of solution", st)
        else
          -- `job.registerSubmit(en1.toLowerCase(), en2.toLowerCase(), nTime,
          -- nonce)`: `registerSubmit` declares two parameters, so the
          -- `nTime` and `nonce` arguments are discarded.
          let reg := registerSubmit job.submits (lcStr a.extraNonce1) (lcStr a.extraNonce2)
          if ¬reg.1 then (.err 22 "duplicate share", st)
          else
            let job2 := { job with submits := reg.2 }
            let st2 := { st with validJobs := setJob st.validJobs a.jobId job2 }
            let headerBuffer := generateBlockHeader job2 a.nTime a.nonce
            let headerSoln := headerBuffer ++ bytesFromHex a.soln
            let headerHash := sha256d headerSoln
            let headerVal := leValue headerHash
            let shareDiff : ℚ := (komodoDiff1 : ℚ) / (headerVal : ℚ)
            let outcome : ShareOutcome :=
              if headerVal ≤ job2.target then
                .accepted (some (bytesToHex (reverseBuffer headerHash)))
              else if shareDiff / difficulty < 99 / 100 then
                match previousDifficulty with
                | some pd =>
                  if pd ≤ shareDiff then .accepted none
                  else .err 23 "low difficulty share"
                | none => .err 23 "low difficulty share"
              else .accepted none
            (outcome, st2)

/-- The duplicate-detection key `processShare` passes to
`registerSubmit`, recorded on the job. -/
def registeredJob (job : Job) (a : ShareSubmission) : Job :=
  { job with submits := job.submits ++
      [lcStr (lcStr a.extraNonce1 ++ lcStr a.extraNonce2)] }

/-! ## `lib/pool/helpers/stratumUtil.js` — sanitizers -/

def isSafeChar (c : Char) : Bool :=
  ('a' ≤ c && c ≤ 'z') || ('A' ≤ c && c ≤ 'Z') || ('0' ≤ c && c ≤ '9') || (c = '.')

/-- `getSafeString`: drop every character outside `[a-zA-Z0-9.]`. -/
def getSafeString (s : String) : String := ⟨s.data.filter isSafeChar⟩

/-- `getSafeWorkerString`: `addr.worker`, defaulting the worker part to
`noname`. -/
def getSafeWorkerString (raw : String) : String :=
  let s := (getSafeString raw).split (fun c => c = '.')
  let addr := s.headD ""
  let wname := if s.length > 1 then s.getD 1 "" else "noname"
  addr ++ "." ++ wname

/-! ## `lib/pool/protocols/stratum.js` — client state machine

Wire messages as a per-client state machine over the handler functions
the claims cite.  `mining.set_target` is modelled carrying the difficulty
it was computed from; the float-to-hex target rendering inside
`sendDifficulty` is not load-bearing for any claim. -/

structure StratumClientState where
  authorized : Option Bool
  extraNonce1 : Option String
  workerName : Option String
  workerPass : Option String
  difficulty : Option ℚ
  previousDifficulty : Option ℚ
  pendingDifficulty : Option ℚ
  hasInitialTarget : Bool
  deriving DecidableEq

/-- A client right after `new StratumClient(...)` with
`hasInitialTarget: false`. -/
def initClient : StratumClientState :=
  { authorized := none, extraNonce1 := none, workerName := none
    workerPass := none, difficulty := none, previousDifficulty := none
    pendingDifficulty := none, hasInitialTarget := false }

/-- The payload of a `sendJson` id-response.  `authResult` forwards
`result.error` from the authorize hook unmodelled. -/
inductive RespPayload where
  | submitAccepted
  | errorResp (code : Nat) (msg : String)
  | authResult (ok : Bool)
  | subscribeOk (en1 : String)
  | subscribeErr
  deriving DecidableEq

inductive WireMsg where
  | response (r : RespPayload)
  | setTarget (difficulty : Option ℚ)
  | notify (jobParams : List String)
  deriving DecidableEq

/-- `StratumClient.sendDifficulty`: result is the state, the sent
messages, and the returned boolean.  The argument is `Option` because the
JS callers can pass `undefined`. -/
def sendDifficulty (st : StratumClientState) (diffArg : Option ℚ) :
    StratumClientState × List WireMsg × Bool :=
  if st.authorized ≠ some true then (st, [], false)
  else if diffArg = st.difficulty then (st, [], false)
  else
    let st1 :=
      if ¬st.hasInitialTarget ∨ st.difficulty = none then
        { st with difficulty := diffArg, hasInitialTarget := true }
      else st
    let st2 := { st1 with previousDifficulty := st1.difficulty, difficulty := diffArg }
    (st2, [WireMsg.setTarget diffArg], true)

/-- `handleAuthorize` with the callback result of `authorizeFn`
(`result.error` truthiness, `result.authorized`, `result.disconnect`).
`portDiff` is `config.ports[localPort].diff`.  The socket destruction on
`disconnect` leaves the already-sent messages unchanged. -/
def handleAuthorize (portDiff : ℚ) (st : StratumClientState)
    (user pass : String) (resErr resAuth : Bool) :
    StratumClientState × List WireMsg :=
  let st1 := { st with workerName := some (getSafeWorkerString user)
                       workerPass := some (getSafeString pass) }
  let auth := !resErr && resAuth
  let st2 := { st1 with authorized := some auth }
  let resp := WireMsg.response (RespPayload.authResult auth)
  if auth then
    let sd := sendDifficulty st2 (some portDiff)
    (sd.1, resp :: sd.2.1)
  else (st2, [resp])

/-- The params array of a `mining.submit` message. -/
structure SubmitParams where
  workerName : String
  jobId : String
  nTime : String
  extraNonce2 : String
  soln : String
  deriving DecidableEq

/-- `handleSubmit`: the response payload sent back, plus the share
submission forwarded to `processShare` (as wired up in the pool's
`submit` listener, with `nonce = extraNonce1 + params[3]`), when any. -/
def handleSubmit (st : StratumClientState) (p : SubmitParams) :
    StratumClientState × RespPayload × Option ShareSubmission :=
  let st1 :=
    match st.workerName with
    | none => { st with workerName := some (getSafeWorkerString p.workerName) }
    | some _ => st
  if st1.authorized = some false then
    (st1, RespPayload.errorResp 24 "unauthorized worker", none)
  else
    match st1.extraNonce1 with
    | none => (st1, RespPayload.errorResp 25 "not subscribed", none)
    | some en1 =>
      (st1, RespPayload.submitAccepted,
       some { jobId := p.jobId, extraNonce1 := en1, extraNonce2 := p.extraNonce2
              nTime := p.nTime, nonce := en1 ++ p.extraNonce2, soln := p.soln })

/-- `handleSubscribe` with the pool's callback result. -/
def handleSubscribe (st : StratumClientState) (err : Bool) (en1 : String) :
    StratumClientState × List WireMsg :=
  if err then (st, [WireMsg.response RespPayload.subscribeErr])
  else ({ st with extraNonce1 := some en1 },
    [WireMsg.response (RespPayload.subscribeOk en1)])

/-- `sendMiningJob`: `timedOut` models
`Date.now() - lastActivity > connectionTimeout * 1000` (the socket is
destroyed, nothing is sent). -/
def sendMiningJob (st : StratumClientState) (timedOut : Bool)
    (jobParams : List String) : StratumClientState × List WireMsg :=
  if timedOut then (st, [])
  else if st.authorized ≠ some true then (st, [])
  else
    match st.pendingDifficulty with
    | some p =>
      let sd := sendDifficulty st (some p)
      ({ sd.1 with pendingDifficulty := none }, sd.2.1 ++ [WireMsg.notify jobParams])
    | none =>
      let sd := sendDifficulty st st.difficulty
      (sd.1, sd.2.1 ++ [WireMsg.notify jobParams])

/-- The externally triggered transitions of one client.  The remaining
`handleMessage` branches (`mining.get_transactions`,
`mining.extranonce.subscribe`, unknown methods) send only id-responses
and never `mining.set_target` or `mining.notify`. -/
inductive ClientEvent where
  | subscribe (err : Bool) (en1 : String)
  | authorize (user pass : String) (resErr resAuth : Bool)
  | submit (p : SubmitParams)
  | enqueueDifficulty (d : ℚ)
  | deliverJob (timedOut : Bool) (jobParams : List String)
  deriving DecidableEq

def clientStep (portDiff : ℚ) (st : StratumClientState) :
    ClientEvent → StratumClientState × List WireMsg
  | .subscribe err en1 => handleSubscribe st err en1
  | .authorize u pw e a => handleAuthorize portDiff st u pw e a
  | .submit p =>
    let r := handleSubmit st p
    (r.1, [WireMsg.response r.2.1])
  | .enqueueDifficulty d => ({ st with pendingDifficulty := some d }, [])
  | .deliverJob t jp => sendMiningJob st t jp

def clientRun (portDiff : ℚ) :
    StratumClientState → List ClientEvent → StratumClientState × List WireMsg
  | st, [] => (st, [])
  | st, e :: rest =>
    let r := clientStep portDiff st e
    let r2 := clientRun portDiff r.1 rest
    (r2.1, r.2 ++ r2.2)

/-- All wire messages a fresh client is sent over a sequence of events. -/
def clientOutputs (portDiff : ℚ) (evs : List ClientEvent) : List WireMsg :=
  (clientRun portDiff initClient evs).2

def isSetTarget : WireMsg → Bool
  | .setTarget _ => true
  | _ => false

def isNotify : WireMsg → Bool
  | .notify _ => true
  | _ => false

/-- Whether some `mining.set_target` occurs in a message list. -/
def anyTarget (l : List WireMsg) : Bool := l.any isSetTarget

/-- `goodB seen out`: scanning `out` left to right starting from the flag
`seen` ("a set_target has already been sent"), every `mining.notify` is
preceded by a set_target. -/
def goodB : Bool → List WireMsg → Bool
  | _, [] => true
  | seen, m :: rest => (if isNotify m then seen else true) && goodB (seen || isSetTarget m) rest

/-- The invariant tying a client's state to the messages already sent:
once the client is authorized — and once it has a difficulty at all — a
`mining.set_target` has been sent. -/
def ClientInv (st : StratumClientState) (seen : Bool) : Prop :=
  (st.authorized = some true → seen = true) ∧ (st.difficulty ≠ none → seen = true)

/-! ## `lib/pool/varDiff.js` (shipped as `src/unnamed/part_008`) -/

structure VarDiffOptions where
  targetTime : ℚ
  retargetTime : ℚ
  variancePercent : ℚ
  minDiff : ℚ
  maxDiff : ℚ
  deriving DecidableEq

def vdVariance (o : VarDiffOptions) : ℚ := o.targetTime * (o.variancePercent / 100)

def vdTMin (o : VarDiffOptions) : ℚ := o.targetTime - vdVariance o

def vdTMax (o : VarDiffOptions) : ℚ := o.targetTime + vdVariance o

/-- `adjustDifficulty(client, avg)`: the `newDifficulty` value emitted,
or `none` when no adjustment happens.  `networkDifficulty` is modelled
after `setNetworkDifficulty` has run (before that it is `undefined` and
the upward cap is absent, as the spec's open questions record). -/
def adjustDifficulty (o : VarDiffOptions) (networkDifficulty clientDiff avg : ℚ) :
    Option ℚ :=
  if avg > vdTMax o ∧ clientDiff > o.minDiff then
    let ddiff : ℚ := 1 / 2
    let ddiff := if ddiff * clientDiff < o.minDiff then o.minDiff / clientDiff else ddiff
    some (clientDiff * ddiff)
  else if avg < vdTMin o then
    let ddiff : ℚ := 2
    let diffMax := min networkDifficulty o.maxDiff
    let ddiff := if ddiff * clientDiff > diffMax then diffMax / clientDiff else ddiff
    some (clientDiff * ddiff)
  else none

/-! ## `lib/stratum/daemon.js` — response parsing -/

/-- Whether `pat` is an initial segment of `s`. -/
def startsWithChars : List Char → List Char → Bool
  | [], _ => true
  | _ :: _, [] => false
  | a :: as, b :: bs => a = b && startsWithChars as bs

/-- Whether `pat` occurs as a contiguous segment of `s`. -/
def hasSubChars (pat : List Char) : List Char → Bool
  | [] => startsWithChars pat []
  | c :: rest => startsWithChars pat (c :: rest) || hasSubChars pat rest

/-- `data.indexOf(':-nan') !== -1`. -/
def containsNanToken (data : String) : Bool :=
  hasSubChars ":-nan".data data.data

/-- Strip `pat` off the front of a character list, returning the
remainder on success. -/
def stripMatched : List Char → List Char → Option (List Char)
  | [], s => some s
  | _ :: _, [] => none
  | p :: ps, c :: cs => if p = c then stripMatched ps cs else none

/-- Left-to-right global replacement of a non-empty pattern: on a match
the pattern is consumed, otherwise one character is copied.  The budget
(one unit per consumed character) keeps the recursion structural. -/
def replaceFuel (pat repl : List Char) : Nat → List Char → List Char
  | 0, s => s
  | fuel + 1, s =>
    match s with
    | [] => []
    | c :: rest =>
      match stripMatched pat (c :: rest) with
      | some remaining => repl ++ replaceFuel pat repl fuel remaining
      | none => c :: replaceFuel pat repl fuel rest

/-- JS `s.replace(pat-regex-g, repl)` for a plain non-empty pattern. -/
def jsReplaceAll (s pat repl : String) : String :=
  ⟨replaceFuel pat.data repl.data s.data.length s.data⟩

/-- `data.replace(/:-nan, /g, ":0")`: every occurrence of the seven
characters `:-nan, ` — comma and space included — is replaced by the two
characters `:0`, silently deleting the separator. -/
def jsReplaceNan (data : String) : String :=
  jsReplaceAll data ":-nan, " ":0"

/-- The replacement claim C10 describes: every occurrence of `:-nan`
becomes `:0`, keeping whatever follows. -/
def claimReplaceNan (data : String) : String :=
  jsReplaceAll data ":-nan" ":0"

inductive ParseAttemptResult where
  | delivered (data : String)
  | parseErrorLogged (data : String)
  | divergent
  deriving DecidableEq

/-- The `parseJson` retry loop of `performHttpRequest`, with `JSON.parse`
success abstracted as `parseOk` and an explicit recursion budget: the JS
recursion is unbounded, and when `jsReplaceNan` leaves the data unchanged
(a `:-nan` with no following comma-space) it never terminates, which the
exhausted budget (`divergent`) witnesses. -/
def parseJsonAttempts (parseOk : String → Bool) : Nat → String → ParseAttemptResult
  | 0, _ => .divergent
  | fuel + 1, data =>
    if parseOk data then .delivered data
    else if containsNanToken data then parseJsonAttempts parseOk fuel (jsReplaceNan data)
    else .parseErrorLogged data

/-! ## Concrete instances used by the theorems -/

/-- A minimal template: empty transaction list, fixed header fields. -/
def rpcBase : RpcData :=
  { previousblockhash := "aa", finalsaplingroothash := "00", bits := "1f7fffff"
    curtime := 1000, height := 100, version := 4, target := "0f"
    transactions := [], miner := 3 }

def c1OldJob : Job := mkJob "d0" rpcBase "cc"

def c1State : JMState :=
  { currentJob := some c1OldJob, validJobs := [("d0", c1OldJob)], jobCounter := 0xcccc }

/-- A stale notification: different `previousblockhash`, strictly lower
height than the current job. -/
def c1StaleRpc : RpcData := { rpcBase with previousblockhash := "bb", height := 99 }

def c1NewJob : Job := mkJob "cccd" c1StaleRpc "cc"

/-- A subscribed client whose `authorized` field was never assigned
(no `mining.authorize` was ever received). -/
def c2Client : StratumClientState := { initClient with extraNonce1 := some "0a0b0c0d" }

def c2Params : SubmitParams :=
  { workerName := "RADDR.rig", jobId := "cccd", nTime := "00000001"
    extraNonce2 := "00000002", soln := "ab" }

def demoNonce : String := ⟨List.replicate 64 '0'⟩

def demoSoln : String := ⟨List.replicate 2694 '0'⟩

def shareRpc : RpcData := { rpcBase with curtime := 0 }

def shareJob : Job := mkJob "1" shareRpc "aa"

def shareState : JMState :=
  { currentJob := some shareJob, validJobs := [("1", shareJob)], jobCounter := 0 }

def shareSub : ShareSubmission :=
  { jobId := "1", extraNonce1 := "0A0B0C0D", extraNonce2 := "00000001"
    nTime := "00000001", nonce := demoNonce, soln := demoSoln }

/-- Same `extraNonce1`/`extraNonce2` as `shareSub`, different `nTime`,
`nonce` and `soln`. -/
def shareSub2 : ShareSubmission :=
  { shareSub with
    nTime := "00000002"
    nonce := String.mk (List.replicate 64 '1')
    soln := String.mk (List.replicate 2694 '1') }

def c5CbHash : String :=
  "000102030405060708090a0b0c0d0e0f101112131415161718191a1b1c1d1e1f"

def c5TxHash : String :=
  "202122232425262728292a2b2c2d2e2f303132333435363738393a3b3c3d3e3f"

def c7Opts : VarDiffOptions :=
  { targetTime := 30, retargetTime := 120, variancePercent := 30
    minDiff := 1, maxDiff := 1000 }

/-- Authorize successfully, then deliver one job. -/
def c8DemoEvents : List ClientEvent :=
  [ClientEvent.authorize "RADDR.rig" "x" false true,
   ClientEvent.deliverJob false ["job1"]]

/-- A response body JSON-invalid only because of `-nan`; replacing
`:-nan` by `:0` as claim C10 describes yields valid JSON. -/
def nanBody : String := "\x7b\"result\":-nan, \"error\":null\x7d"

/-- What the code's retry actually parses: the comma and space after the
substituted value have been deleted. -/
def nanBodyGlued : String := "\x7b\"result\":0\"error\":null\x7d"

/-- The body the claim's replacement produces (valid JSON). -/
def nanBodyFixed : String := "\x7b\"result\":0, \"error\":null\x7d"

/-- A `-nan` at the end of an object: `:-nan` occurs but `:-nan, ` does
not, so the retry never changes the data. -/
def nanTailBody : String := "\x7b\"balance\":-nan\x7d"

/-! ## Shared lemmas about the valid-jobs map and share registration -/

theorem findJob_setJob (m : List (String × Job)) (id : String) (j : Job) :
    findJob (setJob m id j) id = some j := by
  induction m with
  | nil => simp [setJob, findJob]
  | cons kv rest ih =>
    obtain ⟨k, v⟩ := kv
    by_cases h : k = id
    · simp [setJob, findJob, h]
    · simp [setJob, findJob, h, ih]

/-- Reaching `registerSubmit` with a fresh key records exactly that key
on the submitted-to job; the rest of the state is untouched. -/
theorem processShare_registers (st : JMState) (a : ShareSubmission)
    (pd : Option ℚ) (df : ℚ) (t : Nat) (job : Job) (nT : Nat)
    (hfind : findJob st.validJobs a.jobId = some job)
    (hid : job.jobId = a.jobId)
    (hnt : a.nTime.length = 8)
    (hparse : parseNTimeInt a.nTime = some nT)
    (hlo : job.rpc.curtime ≤ nT) (hhi : nT ≤ t + 7200)
    (hnonce : a.nonce.length = 64) (hsoln : a.soln.length = 2694)
    (hfresh : lcStr (lcStr a.extraNonce1 ++ lcStr a.extraNonce2) ∉ job.submits) :
    (processShare st a pd df t).2 =
      { st with validJobs := setJob st.validJobs a.jobId (registeredJob job a) } := by
  have c4 : ¬(nT < job.rpc.curtime ∨ t + 7200 < nT) := by omega
  simp [processShare, hfind, hparse, hid, hnt, hnonce, hsoln, c4,
    registerSubmit, hfresh, registeredJob]

/-- A key already present on the job makes `processShare` return
`[22, "duplicate share"]`. -/
theorem processShare_duplicate (st : JMState) (a : ShareSubmission)
    (pd : Option ℚ) (df : ℚ) (t : Nat) (job : Job) (nT : Nat)
    (hfind : findJob st.validJobs a.jobId = some job)
    (hid : job.jobId = a.jobId)
    (hnt : a.nTime.length = 8)
    (hparse : parseNTimeInt a.nTime = some nT)
    (hlo : job.rpc.curtime ≤ nT) (hhi : nT ≤ t + 7200)
    (hnonce : a.nonce.length = 64) (hsoln : a.soln.length = 2694)
    (hdup : lcStr (lcStr a.extraNonce1 ++ lcStr a.extraNonce2) ∈ job.submits) :
    (processShare st a pd df t).1 = ShareOutcome.err 22 "duplicate share" := by
  have c4 : ¬(nT < job.rpc.curtime ∨ t + 7200 < nT) := by omega
  simp [processShare, hfind, hparse, hid, hnt, hnonce, hsoln, c4,
    registerSubmit, hdup]

/-! ## Claim C3 — identical resubmission is a duplicate -/

/-- C3: once a submission tuple passes validation and is registered on a
template, resubmitting the identical tuple (at any later submit time)
returns `[22, "duplicate share"]`: `registerSubmit` lowercases the
concatenation of the two arguments it receives, finds it in the
template's set, and reports the submission as not new. -/
theorem processShare_identical_resubmission_duplicate (st : JMState)
    (a : ShareSubmission) (pd1 pd2 : Option ℚ) (df1 df2 : ℚ)
    (t1 t2 : Nat) (job : Job) (nT : Nat)
    (hfind : findJob st.validJobs a.jobId = some job)
    (hid : job.jobId = a.jobId)
    (hnt : a.nTime.length = 8)
    (hparse : parseNTimeInt a.nTime = some nT)
    (hlo : job.rpc.curtime ≤ nT) (hhi : nT ≤ t1 + 7200) (ht : t1 ≤ t2)
    (hnonce : a.nonce.length = 64) (hsoln : a.soln.length = 2694)
    (hfresh : lcStr (lcStr a.extraNonce1 ++ lcStr a.extraNonce2) ∉ job.submits) :
    (processShare (processShare st a pd1 df1 t1).2 a pd2 df2 t2).1 =
      ShareOutcome.err 22 "duplicate share" := by
  rw [processShare_registers st a pd1 df1 t1 job nT hfind hid hnt hparse hlo hhi
    hnonce hsoln hfresh]
  exact processShare_duplicate _ a pd2 df2 t2 (registeredJob job a) nT
    (findJob_setJob _ _ _) hid hnt hparse hlo (by omega) hnonce hsoln
    (by simp [registeredJob])

/-- Witness for `processShare_identical_resubmission_duplicate` on the
concrete job `shareJob` and submission `shareSub`. -/
theorem processShare_identical_resubmission_duplicate_witness :
    (processShare (processShare shareState shareSub none 1 16777216).2
      shareSub none 1 16777216).1 = ShareOutcome.err 22 "duplicate share" :=
  processShare_identical_resubmission_duplicate shareState shareSub none none 1 1
    16777216 16777216 shareJob 16777216 (by rfl) (by rfl) (by decide) (by rfl)
    (by decide) (by decide) (by decide)
    (by simp [shareSub, demoNonce, String.length])
    (by simp [shareSub, demoSoln, String.length]) (by decide)

/-! ## Claim C4 — dedup keyed only on the extranonces -/

/-- C4: duplicate detection keys on the lowercased
`extraNonce1 ++ extraNonce2` only.  A second submission agreeing with a
registered one on both extranonces is rejected `[22, "duplicate share"]`
even when its `nTime`, `nonce` and `solution` all differ, because the
call site passes four arguments to the two-parameter `registerSubmit`
and the `nTime`/`nonce` arguments are discarded. -/
theorem processShare_dedup_ignores_ntime_nonce_soln (st : JMState)
    (a1 a2 : ShareSubmission) (pd1 pd2 : Option ℚ) (df1 df2 : ℚ)
    (t1 t2 : Nat) (job : Job) (nT1 nT2 : Nat)
    (hjid : a2.jobId = a1.jobId)
    (hen1 : a2.extraNonce1 = a1.extraNonce1)
    (hen2 : a2.extraNonce2 = a1.extraNonce2)
    (hfind : findJob st.validJobs a1.jobId = some job)
    (hid : job.jobId = a1.jobId)
    (hnt1 : a1.nTime.length = 8)
    (hparse1 : parseNTimeInt a1.nTime = some nT1)
    (hlo1 : job.rpc.curtime ≤ nT1) (hhi1 : nT1 ≤ t1 + 7200)
    (hnonce1 : a1.nonce.length = 64) (hsoln1 : a1.soln.length = 2694)
    (hfresh : lcStr (lcStr a1.extraNonce1 ++ lcStr a1.extraNonce2) ∉ job.submits)
    (hnt2 : a2.nTime.length = 8)
    (hparse2 : parseNTimeInt a2.nTime = some nT2)
    (hlo2 : job.rpc.curtime ≤ nT2) (hhi2 : nT2 ≤ t2 + 7200)
    (hnonce2 : a2.nonce.length = 64) (hsoln2 : a2.soln.length = 2694) :
    (processShare (processShare st a1 pd1 df1 t1).2 a2 pd2 df2 t2).1 =
      ShareOutcome.err 22 "duplicate share" := by
  rw [processShare_registers st a1 pd1 df1 t1 job nT1 hfind hid hnt1 hparse1
    hlo1 hhi1 hnonce1 hsoln1 hfresh]
  refine processShare_duplicate _ a2 pd2 df2 t2 (registeredJob job a1) nT2
    ?_ ?_ hnt2 hparse2 hlo2 hhi2 hnonce2 hsoln2 ?_
  · rw [hjid]
    exact findJob_setJob _ _ _
  · rw [hjid]
    exact hid
  · rw [hen1, hen2]
    simp [registeredJob]

/-- Witness for `processShare_dedup_ignores_ntime_nonce_soln`:
`shareSub2` differs from `shareSub` in `nTime`, `nonce` and `soln` but
agrees on both extranonces, and is rejected as a duplicate. -/
theorem processShare_dedup_ignores_ntime_nonce_soln_witness :
    (processShare (processShare shareState shareSub none 1 16777216).2
      shareSub2 none 1 33554432).1 = ShareOutcome.err 22 "duplicate share" :=
  processShare_dedup_ignores_ntime_nonce_soln shareState shareSub shareSub2
    none none 1 1 16777216 33554432 shareJob 16777216 33554432 (by rfl)
    (by rfl) (by rfl) (by rfl) (by rfl) (by decide) (by rfl) (by decide)
    (by decide)
    (by simp [shareSub, demoNonce, String.length])
    (by simp [shareSub, demoSoln, String.length]) (by decide) (by decide)
    (by rfl) (by decide) (by decide)
    (by simp [shareSub2, shareSub, String.length])
    (by simp [shareSub2, shareSub, String.length])

/-! ## Claim C5 — the merkle root -/

theorem hexDigit?_lt (c : Char) (d : Nat) (h : hexDigit? c = some d) : d < 16 := by
  unfold hexDigit? at h
  split at h
  · injection h with h1
    omega
  · split at h
    · injection h with h1
      omega
    · split at h
      · injection h with h1
        omega
      · exact absurd h (by simp)

theorem hexDigit?_hexChar : ∀ d, d < 16 → hexDigit? (hexChar d) = some d := by
  decide

theorem bytesFromHexChars_lt :
    ∀ l : List Char, ∀ b ∈ bytesFromHexChars l, b < 256
  | [], b => by simp [bytesFromHexChars]
  | [c], b => by simp [bytesFromHexChars]
  | c1 :: c2 :: rest, b => by
    intro hb
    simp only [bytesFromHexChars] at hb
    cases h1 : hexDigit? c1 <;> rw [h1] at hb
    · simp at hb
    · cases h2 : hexDigit? c2 <;> rw [h2] at hb
      · simp at hb
      · simp only [List.mem_cons] at hb
        rcases hb with rfl | hb
        · have e1 := hexDigit?_lt c1 _ h1
          have e2 := hexDigit?_lt c2 _ h2
          omega
        · exact bytesFromHexChars_lt rest b hb

/-- Decoding hex produced from in-range bytes is the identity. -/
theorem bytesFromHex_bytesToHex (bs : List Nat) (h : ∀ b ∈ bs, b < 256) :
    bytesFromHexChars (bytesToHex bs).data = bs := by
  induction bs with
  | nil => rfl
  | cons b rest ih =>
    have hb : b < 256 := h b (by simp)
    have h16a : b / 16 < 16 := by omega
    have h16b : b % 16 < 16 := by omega
    show bytesFromHexChars
      (hexChar (b / 16) :: hexChar (b % 16) :: (rest.map byteToHexChars).flatten) =
      b :: rest
    simp only [bytesFromHexChars, hexDigit?_hexChar _ h16a, hexDigit?_hexChar _ h16b]
    have hb' : 16 * (b / 16) + b % 16 = b := by omega
    rw [hb']
    exact congrArg (fun l => b :: l) (ih (fun x hx => h x (by simp [hx])))

theorem bytesFromHex_reverseHex (s : String) :
    bytesFromHex (reverseHex s) = reverseBuffer (bytesFromHex s) := by
  show bytesFromHexChars (bytesToHex (reverseBuffer (bytesFromHex s))).data =
    reverseBuffer (bytesFromHex s)
  refine bytesFromHex_bytesToHex _ (fun b hb => ?_)
  exact bytesFromHexChars_lt s.data b (by simpa [reverseBuffer] using hb)

/-- C5, counterexample.  The claim says the leaf list starts with the
byte-reversed coinbase hash whenever transactions are present.  The code
pushes `Buffer.from(cBase.hash, 'hex')` unreversed, so on a one-
transaction template the two algorithms produce different roots. -/
theorem createMerkleRoot_claim_counterexample :
    createMerkleRoot [c5TxHash] c5CbHash ≠ merkleRootClaimed [c5TxHash] c5CbHash := by
  decide

/-- C5, amended: the claim holds with one change — when transactions are
present the first leaf is the coinbase hash exactly as delivered (not
byte-reversed); transaction hashes are byte-reversed, the pairing loop
doubles-SHA-256 pairs (duplicating the last on odd counts), and the
result is returned reverse-endian.  The zero-transaction shortcut,
returning the byte-reversed coinbase hash, coincides with running the
uniform algorithm on the singleton leaf list, so the claim's
zero-transaction corollary survives. -/
theorem createMerkleRoot_amended (txs : List String) (cb : String) :
    createMerkleRoot txs cb = merkleRootAmended txs cb := by
  cases txs with
  | nil => rfl
  | cons t ts =>
    have hne : (t :: ts) ≠ [] := by simp
    simp only [createMerkleRoot, if_neg hne, merkleRootAmended]
    have hm : ((t :: ts).map (fun tx => bytesFromHex (reverseHex tx))) =
        ((t :: ts).map (fun tx => reverseBuffer (bytesFromHex tx))) :=
      List.map_congr_left (fun x _ => bytesFromHex_reverseHex x)
    rw [hm]

/-! ## Claim C6 — varint round-trip and the block-serialization varint -/

/-- C6, counterexample.  The claim asserts that `varIntBuffer` handles
every non-negative integer (9 bytes with a uint64 LE payload for
`n ≥ 2^32`) and that the transaction-count varint of the block serializer
follows the same convention.  At `n = 2^32` the encoder throws
(`packUInt16LE` rejects the value), and at a transaction count of 128 the
block serializer emits the two bytes `FD 80` where the convention
prescribes the single byte `80`. -/
theorem varIntBuffer_claim_counterexample :
    varIntBuffer 4294967296 = none ∧
    blockTxCountVarInt 128 = some [0xfd, 0x80] ∧
    varIntBuffer 128 = some [128] ∧
    decodeVarInt [0xfd, 0x80] = none := by decide

/-- C6, amended: for `n < 2^32`, `varIntBuffer n` decodes back to `n`
with the Bitcoin-convention length (1/3/5 bytes at the `0xFD`/`0x10000`
boundaries); for `n ≥ 2^32` the encoder throws instead of producing
9 bytes; and the transaction-count varint used in block serialization
follows its own scheme, emitting `FD` followed by the raw big-endian
byte for counts `0x80..0xFC` where the convention uses one byte. -/
theorem varIntBuffer_roundtrip_amended :
    (∀ n : Nat, n < 4294967296 →
      ∃ bs, varIntBuffer n = some bs ∧ decodeVarInt bs = some n ∧
        bs.length = varIntConventionLength n) ∧
    (∀ n : Nat, 4294967296 ≤ n → varIntBuffer n = none) ∧
    (∀ n : Nat, n < 253 → 127 < n →
      blockTxCountVarInt n = some [253, n] ∧ varIntBuffer n = some [n]) := by
  refine ⟨?_, ?_, ?_⟩
  · intro n hn
    by_cases h1 : n < 253
    · refine ⟨[n], ?_, ?_, ?_⟩
      · simp [varIntBuffer, h1]
      · simp [decodeVarInt, h1]
      · simp [varIntConventionLength, h1]
    · by_cases h2 : n ≤ 65535
      · refine ⟨[253, n % 256, n / 256], ?_, ?_, ?_⟩
        · simp [varIntBuffer, packUInt16LE, h1, h2]
        · simp [decodeVarInt]
          omega
        · have h2' : n < 65536 := by omega
          simp [varIntConventionLength, h1, h2']
      · refine ⟨[254, n % 256, n / 256 % 256, n / 65536 % 256, n / 16777216 % 256],
          ?_, ?_, ?_⟩
        · have h3 : n ≤ 4294967295 := by omega
          simp [varIntBuffer, packUInt16LE, packUInt32LE, h1, h2, h3]
        · simp [decodeVarInt]
          omega
        · have h2' : ¬n < 65536 := by omega
          simp [varIntConventionLength, h1, h2', hn]
  · intro n hn
    have h1 : ¬n < 253 := by omega
    have h2 : ¬n ≤ 65535 := by omega
    have h3 : ¬n ≤ 4294967295 := by omega
    simp [varIntBuffer, packUInt16LE, h1, h2, h3]
  · decide

/-- Witness for `varIntBuffer_roundtrip_amended` at `n = 300`,
`n = 5000000000` and a transaction count of 200. -/
theorem varIntBuffer_roundtrip_amended_witness :
    (∃ bs, varIntBuffer 300 = some bs ∧ decodeVarInt bs = some 300 ∧
      bs.length = varIntConventionLength 300) ∧
    varIntBuffer 5000000000 = none ∧
    (blockTxCountVarInt 200 = some [253, 200] ∧ varIntBuffer 200 = some [200]) :=
  ⟨varIntBuffer_roundtrip_amended.1 300 (by decide),
   varIntBuffer_roundtrip_amended.2.1 5000000000 (by norm_num),
   varIntBuffer_roundtrip_amended.2.2 200 (by decide) (by decide)⟩

/-! ## Claim C1 — the stale-notification drop -/

/-- C1: the claim says a template whose `previousblockhash` differs from
the current job's while its height is strictly lower is dropped —
`processTemplate` returns `false`, emits nothing, and leaves the state
unchanged.  On such an input the code instead runs the new-block path:
`newBlock` is true whenever the heights differ, so the guarded drop at
jobManager.js:145-149 is unreachable; the stale template replaces
`currentJob`, the valid-jobs map is cleared down to the new job, a
`newBlock` event fires and `true` is returned. -/
theorem processTemplate_stale_treated_as_new_block :
    processTemplate "cc" c1State c1StaleRpc =
      (true,
       { currentJob := some c1NewJob, validJobs := [("cccd", c1NewJob)],
         jobCounter := 0xcccd },
       [JMEvent.newBlock c1NewJob]) := by rfl

/-! ## Claim C2 — `mining.submit` gatekeeping -/

/-- C2, counterexample.  The claim says a not-authorized client's
submission is answered with error `[24, "unauthorized worker", null]`.
The handler only checks `authorized === false`, so a subscribed client
that never attempted authorization (`authorized` still `undefined`) is
not rejected: its share is forwarded to `processShare` and the response
is `{result: true, error: null}`. -/
theorem handleSubmit_claim_counterexample :
    c2Client.authorized ≠ some true ∧
    (handleSubmit c2Client c2Params).2.1 = RespPayload.submitAccepted ∧
    (handleSubmit c2Client c2Params).2.1 ≠ RespPayload.errorResp 24 "unauthorized worker" ∧
    (handleSubmit c2Client c2Params).2.2 ≠ none := by decide

/-- C2, amended: error `[24, "unauthorized worker", null]` is sent
exactly when the client's `authorized` flag is literally `false` (a
failed authorization attempt) — a client that never attempted
authorization passes that check; otherwise error
`[25, "not subscribed", null]` when `extraNonce1` is unset; otherwise
the submission is forwarded (with `nonce = extraNonce1 + extraNonce2`)
and the response is always `{result: true, error: null}` regardless of
the share verdict. -/
theorem handleSubmit_amended (st : StratumClientState) (p : SubmitParams) :
    (st.authorized = some false →
      (handleSubmit st p).2.1 = RespPayload.errorResp 24 "unauthorized worker" ∧
      (handleSubmit st p).2.2 = none) ∧
    (st.authorized ≠ some false → st.extraNonce1 = none →
      (handleSubmit st p).2.1 = RespPayload.errorResp 25 "not subscribed" ∧
      (handleSubmit st p).2.2 = none) ∧
    (∀ en1, st.authorized ≠ some false → st.extraNonce1 = some en1 →
      (handleSubmit st p).2.1 = RespPayload.submitAccepted ∧
      (handleSubmit st p).2.2 = some
        { jobId := p.jobId, extraNonce1 := en1, extraNonce2 := p.extraNonce2
          nTime := p.nTime, nonce := en1 ++ p.extraNonce2, soln := p.soln }) := by
  refine ⟨?_, ?_, ?_⟩
  · intro h
    cases hw : st.workerName <;> simp [handleSubmit, hw, h]
  · intro h hen
    cases hw : st.workerName <;> simp [handleSubmit, hw, h, hen]
  · intro en1 h hen
    cases hw : st.workerName <;> simp [handleSubmit, hw, h, hen]

/-- Witness for `handleSubmit_amended`: the forwarded-share arm at the
concrete client `c2Client`. -/
theorem handleSubmit_amended_witness :
    (handleSubmit c2Client c2Params).2.1 = RespPayload.submitAccepted ∧
    (handleSubmit c2Client c2Params).2.2 = some
      { jobId := c2Params.jobId, extraNonce1 := "0a0b0c0d"
        extraNonce2 := c2Params.extraNonce2, nTime := c2Params.nTime
        nonce := "0a0b0c0d" ++ c2Params.extraNonce2, soln := c2Params.soln } :=
  (handleSubmit_amended c2Client c2Params).2.2 "0a0b0c0d" (by decide) (by decide)

/-! ## Claim C7 — VarDiff retarget bounds -/

/-- C7: at a retarget, the downward factor is
`max(0.5, minDiff/difficulty)` — so the emitted difficulty never drops
below `minDiff` — and the upward factor is
`min(2, min(networkDifficulty, maxDiff)/difficulty)` — so an upward
adjustment never exceeds `min(networkDifficulty, maxDiff)`.  JS numbers
are modelled as exact rationals. -/
theorem adjustDifficulty_bounds (o : VarDiffOptions) (net d avg : ℚ)
    (hd : 0 < d) :
    (avg > vdTMax o → d > o.minDiff →
      adjustDifficulty o net d avg = some (d * max (1 / 2) (o.minDiff / d)) ∧
      o.minDiff ≤ d * max (1 / 2) (o.minDiff / d)) ∧
    (¬(avg > vdTMax o ∧ d > o.minDiff) → avg < vdTMin o →
      adjustDifficulty o net d avg =
        some (d * min 2 (min net o.maxDiff / d)) ∧
      d * min 2 (min net o.maxDiff / d) ≤ min net o.maxDiff) := by
  have hd0 : d ≠ 0 := ne_of_gt hd
  constructor
  · intro h1 h2
    constructor
    · simp only [adjustDifficulty, if_pos (And.intro h1 h2)]
      congr 1
      by_cases hlt : (1 / 2 : ℚ) * d < o.minDiff
      · rw [if_pos hlt, max_eq_right ((le_div_iff₀ hd).mpr (le_of_lt hlt))]
      · rw [if_neg hlt, max_eq_left ((div_le_iff₀ hd).mpr (by linarith [not_lt.mp hlt]))]
    · rcases max_cases (1 / 2 : ℚ) (o.minDiff / d) with ⟨he, hge⟩ | ⟨he, _⟩
      · rw [he]
        have h5 : o.minDiff ≤ 1 / 2 * d := (div_le_iff₀ hd).mp hge
        linarith [h5]
      · rw [he, mul_comm, div_mul_cancel₀ _ hd0]
  · intro hno h3
    constructor
    · simp only [adjustDifficulty, if_neg hno, if_pos h3]
      congr 1
      by_cases hgt : (2 : ℚ) * d > min net o.maxDiff
      · rw [if_pos hgt, min_eq_right ((div_le_iff₀ hd).mpr (by linarith [hgt]))]
      · rw [if_neg hgt, min_eq_left ((le_div_iff₀ hd).mpr (by linarith [not_lt.mp hgt]))]
    · rcases min_cases (2 : ℚ) (min net o.maxDiff / d) with ⟨he, hle⟩ | ⟨he, _⟩
      · rw [he]
        have h5 : 2 * d ≤ min net o.maxDiff := (le_div_iff₀ hd).mp hle
        linarith [h5]
      · rw [he, mul_comm, div_mul_cancel₀ _ hd0]

/-- Witness for `adjustDifficulty_bounds`: a slow miner at difficulty 4
with `minDiff = 1` is retargeted to `4 * max(1/2, 1/4) = 2 ≥ 1`. -/
theorem adjustDifficulty_bounds_witness :
    adjustDifficulty c7Opts 1000 4 50 =
      some (4 * max (1 / 2) (c7Opts.minDiff / 4)) ∧
    c7Opts.minDiff ≤ 4 * max (1 / 2) (c7Opts.minDiff / 4) :=
  (adjustDifficulty_bounds c7Opts 1000 4 50 (by norm_num)).1
    (by norm_num [vdTMax, vdVariance, c7Opts]) (by norm_num [c7Opts])

/-! ## Claim C8 — `mining.set_target` precedes the first `mining.notify` -/

theorem goodB_true : ∀ l, goodB true l = true
  | [] => rfl
  | m :: rest => by simp [goodB, goodB_true rest]

theorem goodB_append : ∀ (a : List WireMsg) (s : Bool) (b : List WireMsg),
    goodB s (a ++ b) = (goodB s a && goodB (s || anyTarget a) b)
  | [], s, b => by simp [goodB, anyTarget]
  | m :: rest, s, b => by
    simp [goodB, anyTarget, goodB_append rest (s || isSetTarget m) b,
      Bool.or_assoc, Bool.and_assoc]

theorem goodB_no_notify : ∀ (l : List WireMsg) (s : Bool),
    (∀ m ∈ l, isNotify m = false) → goodB s l = true
  | [], _, _ => rfl
  | m :: rest, s, h => by
    simp [goodB, h m (by simp),
      goodB_no_notify rest (s || isSetTarget m) (fun x hx => h x (by simp [hx]))]

/-- `sendDifficulty` either sends nothing and leaves the client unchanged
(and, on an authorized client, only because the difficulty argument
already equals the stored one), or sends exactly one `mining.set_target`
without touching `authorized`. -/
theorem sendDifficulty_spec (st : StratumClientState) (d : Option ℚ) :
    ((sendDifficulty st d).2.1 = [] ∧ (sendDifficulty st d).1 = st ∧
      (st.authorized = some true → d = st.difficulty)) ∨
    ((sendDifficulty st d).2.1 = [WireMsg.setTarget d] ∧
      (sendDifficulty st d).1.authorized = st.authorized ∧
      (sendDifficulty st d).1.difficulty = d) := by
  unfold sendDifficulty
  split
  · next h => exact Or.inl ⟨rfl, rfl, fun h2 => absurd h2 h⟩
  · split
    · next h2 => exact Or.inl ⟨rfl, rfl, fun _ => h2⟩
    · right
      refine ⟨rfl, ?_, ?_⟩
      · dsimp only
        split <;> rfl
      · rfl

theorem handleSubmit_preserves (st : StratumClientState) (p : SubmitParams) :
    (handleSubmit st p).1.authorized = st.authorized ∧
    (handleSubmit st p).1.difficulty = st.difficulty := by
  unfold handleSubmit
  cases hw : st.workerName <;> dsimp only <;> split
  · exact ⟨rfl, rfl⟩
  · split <;> exact ⟨rfl, rfl⟩
  · exact ⟨rfl, rfl⟩
  · split <;> exact ⟨rfl, rfl⟩

/-- The authorize-success tail:idempotent or not, the `sendDifficulty`
call leaves the invariant re-establishable. -/
theorem authStep_good (pd : ℚ) (seen : Bool) (st2 : StratumClientState)
    (r : RespPayload) (hA : st2.authorized = some true)
    (hD : st2.difficulty ≠ none → seen = true) :
    goodB seen (WireMsg.response r :: (sendDifficulty st2 (some pd)).2.1) = true ∧
    ((sendDifficulty st2 (some pd)).1.authorized = some true →
      (seen || anyTarget (WireMsg.response r :: (sendDifficulty st2 (some pd)).2.1)) = true) ∧
    ((sendDifficulty st2 (some pd)).1.difficulty ≠ none →
      (seen || anyTarget (WireMsg.response r :: (sendDifficulty st2 (some pd)).2.1)) = true) := by
  rcases sendDifficulty_spec st2 (some pd) with ⟨hm, hst, himpl⟩ | ⟨hm, hA2, hD2⟩
  · rw [hm, hst]
    have hseen : seen = true := hD (by rw [← himpl hA]; simp)
    subst hseen
    exact ⟨by simp [goodB, isNotify], fun _ => by simp, fun _ => by simp⟩
  · rw [hm]
    refine ⟨by simp [goodB, isNotify], fun _ => ?_, fun _ => ?_⟩ <;>
      simp [anyTarget, isSetTarget]

/-- One step preserves the invariant and never emits a notify that is not
covered by an earlier (or same-step) set_target. -/
theorem clientStep_good (pd : ℚ) (st : StratumClientState) (e : ClientEvent)
    (seen : Bool) (hinv : ClientInv st seen) :
    goodB seen (clientStep pd st e).2 = true ∧
    ClientInv (clientStep pd st e).1 (seen || anyTarget (clientStep pd st e).2) := by
  obtain ⟨hauth, hdiff⟩ := hinv
  cases e with
  | subscribe err en1 =>
    cases err with
    | false =>
      exact ⟨by simp [clientStep, handleSubscribe, goodB, isNotify],
        fun h => by simp [hauth h], fun h => by simp [hdiff h]⟩
    | true =>
      exact ⟨by simp [clientStep, handleSubscribe, goodB, isNotify],
        fun h => by simp [hauth h], fun h => by simp [hdiff h]⟩
  | submit p =>
    refine ⟨by simp [clientStep, goodB, isNotify], fun h => ?_, fun h => ?_⟩
    · have h2 : st.authorized = some true := by
        rw [← (handleSubmit_preserves st p).1]
        exact h
      simp [hauth h2]
    · have h2 : st.difficulty ≠ none := by
        rw [← (handleSubmit_preserves st p).2]
        exact h
      simp [hdiff h2]
  | enqueueDifficulty d =>
    exact ⟨rfl, fun h => by simp [hauth h], fun h => by simp [hdiff h]⟩
  | authorize u pw e a =>
    simp only [clientStep]
    unfold handleAuthorize
    dsimp only
    cases hb : (!e && a) with
    | false =>
      rw [if_neg (by simp : ¬(false = true))]
      refine ⟨by simp [goodB, isNotify], fun h => ?_, fun h => ?_⟩
      · simp at h
      · simp [hdiff h]
    | true =>
      rw [if_pos rfl]
      exact authStep_good pd seen _ _ rfl (fun h => hdiff h)
  | deliverJob t jp =>
    simp only [clientStep]
    unfold sendMiningJob
    cases t with
    | true =>
      rw [if_pos rfl]
      exact ⟨rfl, fun h => by simp [hauth h], fun h => by simp [hdiff h]⟩
    | false =>
      rw [if_neg (by simp : ¬(false = true))]
      by_cases hA : st.authorized = some true
      · have hseen := hauth hA
        subst hseen
        rw [if_neg (by simp [hA])]
        refine ⟨?_, fun _ => by simp, fun _ => by simp⟩
        dsimp only
        split <;> exact goodB_true _
      · rw [if_pos (by simp [hA])]
        exact ⟨rfl, fun h => absurd h hA, fun h => by simp [hdiff h]⟩

theorem clientRun_good (pd : ℚ) :
    ∀ (evs : List ClientEvent) (st : StratumClientState) (seen : Bool),
      ClientInv st seen → goodB seen (clientRun pd st evs).2 = true
  | [], _, _, _ => rfl
  | e :: rest, st, seen, hinv => by
    show goodB seen ((clientStep pd st e).2 ++
      (clientRun pd (clientStep pd st e).1 rest).2) = true
    rw [goodB_append]
    have hstep := clientStep_good pd st e seen hinv
    rw [hstep.1, clientRun_good pd rest _ _ hstep.2]
    rfl

/-- From the scan invariant to positions: a notify at index `i` needs the
start flag or an earlier set_target. -/
theorem goodB_notify_target :
    ∀ (out : List WireMsg) (s : Bool) (i : Nat) (p : List String),
      goodB s out = true → out[i]? = some (WireMsg.notify p) →
      s = true ∨ ∃ j, j < i ∧ ∃ d, out[j]? = some (WireMsg.setTarget d)
  | [], _, i, _, _, hg => by simp at hg
  | m :: rest, s, 0, p, hgood, hg => by
    simp only [List.getElem?_cons_zero, Option.some.injEq] at hg
    subst hg
    simp only [goodB, isNotify, Bool.and_eq_true, if_true] at hgood
    exact Or.inl hgood.1
  | m :: rest, s, i + 1, p, hgood, hg => by
    simp only [List.getElem?_cons_succ] at hg
    simp only [goodB, Bool.and_eq_true] at hgood
    rcases goodB_notify_target rest (s || isSetTarget m) i p hgood.2 hg with h1 | ⟨j, hj, d, hjd⟩
    · rcases Bool.or_eq_true_iff.mp h1 with h2 | h2
      · exact Or.inl h2
      · refine Or.inr ⟨0, by omega, ?_⟩
        cases m with
        | setTarget d => exact ⟨d, by simp⟩
        | response r => simp [isSetTarget] at h2
        | notify q => simp [isSetTarget] at h2
    · exact Or.inr ⟨j + 1, by omega, d, by simpa using hjd⟩

/-- C8: over any event sequence driving a fresh Stratum client, every
`mining.notify` in the sent message stream is preceded by an earlier
`mining.set_target`: `mining.notify` is only sent to authorized clients,
and successful authorization sends the initial target (computed from the
port's configured difficulty) before any job delivery. -/
theorem setTarget_before_first_notify (pd : ℚ) (evs : List ClientEvent)
    (i : Nat) (p : List String)
    (h : (clientOutputs pd evs)[i]? = some (WireMsg.notify p)) :
    ∃ j, j < i ∧ ∃ d, (clientOutputs pd evs)[j]? = some (WireMsg.setTarget d) := by
  have hrun : goodB false (clientOutputs pd evs) = true :=
    clientRun_good pd evs initClient false
      ⟨fun h2 => by simp [initClient] at h2, fun h2 => by simp [initClient] at h2⟩
  rcases goodB_notify_target (clientOutputs pd evs) false i p hrun h with h1 | h2
  · exact absurd h1 (by simp)
  · exact h2

/-- Witness for `setTarget_before_first_notify`: authorize then deliver a
job; the notify sits at index 2, behind the set_target at index 1. -/
theorem setTarget_before_first_notify_witness :
    (clientOutputs 1 c8DemoEvents)[2]? = some (WireMsg.notify ["job1"]) ∧
    ∃ j, j < 2 ∧ ∃ d, (clientOutputs 1 c8DemoEvents)[j]? =
      some (WireMsg.setTarget d) :=
  ⟨by rfl, setTarget_before_first_notify 1 c8DemoEvents 2 ["job1"] (by rfl)⟩

/-! ## Claim C9 — extranonce uniqueness -/

theorem toInt32_range (z : ℤ) :
    -2147483648 ≤ toInt32 z ∧ toInt32 z < 2147483648 := by
  unfold toInt32
  have h1 : 0 ≤ z % 4294967296 := Int.emod_nonneg z (by norm_num)
  have h2 : z % 4294967296 < 4294967296 := Int.emod_lt_of_pos z (by norm_num)
  dsimp only
  split <;> omega

/-- The seed `instanceId << 27` is a multiple of `2^27` in
`[-2^31, 2^31)`. -/
theorem extraNonceSeed_spec (id : ℤ) :
    (134217728 : ℤ) ∣ extraNonceSeed id ∧
    -2147483648 ≤ extraNonceSeed id ∧ extraNonceSeed id < 2147483648 := by
  have hr := toInt32_range (toInt32 id * 134217728)
  refine ⟨?_, hr.1, hr.2⟩
  show (134217728 : ℤ) ∣ toInt32 (toInt32 id * 134217728)
  unfold toInt32
  have h1 : 0 ≤ (toInt32 id * 134217728) % 4294967296 :=
    Int.emod_nonneg _ (by norm_num)
  dsimp only
  split <;> omega

theorem bytesToHex_length (bs : List Nat) : (bytesToHex bs).length = 2 * bs.length := by
  induction bs with
  | nil => rfl
  | cons b rest ih =>
    show (byteToHexChars b ++ (rest.map byteToHexChars).flatten).length =
      2 * (rest.length + 1)
    rw [List.length_append]
    have h2 : ((rest.map byteToHexChars).flatten).length = 2 * rest.length := ih
    have h3 : (byteToHexChars b).length = 2 := rfl
    omega

/-- The hex rendering of `packUInt32BE` recovers the packed value. -/
theorem beValue4_pack (n : Nat) (h : n ≤ 4294967295) :
    beValue (bytesFromHexChars (bytesToHex
      [n / 16777216 % 256, n / 65536 % 256, n / 256 % 256, n % 256]).data) = n := by
  rw [bytesFromHex_bytesToHex _ ?_]
  · show beValue [n / 16777216 % 256, n / 65536 % 256, n / 256 % 256, n % 256] = n
    simp only [beValue, List.foldl]
    omega
  · intro b hb
    simp only [List.mem_cons, List.not_mem_nil, or_false] at hb
    rcases hb with rfl | rfl | rfl | rfl <;> omega

/-- C9: from any freshly constructed `ExtraNonceCounter` — the seed
shifted into a per-instance subspace of multiples of `2^27` — the first
`K ≤ 2^27` values of `next()` are pairwise distinct 8-hex-character
strings: `Math.abs` folds the negative seeds onto naturals, but two
indices can only collide when their sum reaches `2·|seed| ≥ 2^28`, out of
reach of a `2^27` window. -/
theorem extraNonce_distinct_and_8hex (id : ℤ) (K : Nat) (hK : K ≤ 134217728) :
    (∀ i, i < K → ∃ s, extraNonceAt id i = some s ∧ s.length = 8) ∧
    (∀ i j, i < K → j < K → i ≠ j → extraNonceAt id i ≠ extraNonceAt id j) := by
  obtain ⟨hdvd, hlo, hhi⟩ := extraNonceSeed_spec id
  have habs : ∀ i : Nat, i < K → (extraNonceSeed id + i).natAbs ≤ 4294967295 := by
    intro i hi
    omega
  constructor
  · intro i hi
    refine ⟨bytesToHex [(extraNonceSeed id + i).natAbs / 16777216 % 256,
      (extraNonceSeed id + i).natAbs / 65536 % 256,
      (extraNonceSeed id + i).natAbs / 256 % 256,
      (extraNonceSeed id + i).natAbs % 256], ?_, ?_⟩
    · unfold extraNonceAt packUInt32BE
      rw [if_pos (habs i hi)]
      rfl
    · rw [bytesToHex_length]
      rfl
  · intro i j hi hj hne heq
    have h1 := habs i hi
    have h2 := habs j hj
    unfold extraNonceAt packUInt32BE at heq
    rw [if_pos h1, if_pos h2] at heq
    simp only [Option.map_some', Option.some.injEq] at heq
    have hv := congrArg (fun s => beValue (bytesFromHexChars s.data)) heq
    simp only at hv
    rw [beValue4_pack _ h1, beValue4_pack _ h2] at hv
    omega

/-- Witness for `extraNonce_distinct_and_8hex` at instance id 7, window
size 2. -/
theorem extraNonce_distinct_and_8hex_witness :
    (∃ s, extraNonceAt 7 0 = some s ∧ s.length = 8) ∧
    extraNonceAt 7 0 ≠ extraNonceAt 7 1 :=
  ⟨(extraNonce_distinct_and_8hex 7 2 (by norm_num)).1 0 (by norm_num),
   (extraNonce_distinct_and_8hex 7 2 (by norm_num)).2 0 1 (by norm_num)
     (by norm_num) (by decide)⟩

/-! ## Claim C10 — the `-nan` retry -/

/-- C10: the claim says any body that becomes valid JSON after replacing
every `:-nan` with `:0` is successfully parsed on retry.  The code's
regex is `/:-nan, /g` replaced by `":0"`: the comma and space are
consumed, so on `nanBody` the retry parses the glued, still-invalid
`nanBodyGlued` and logs a parse error; and on a body whose `:-nan` is not
followed by comma-space the replacement is the identity and the retry
recurses forever (every finite budget is exhausted).  `parseOk` abstracts
`JSON.parse` success; the hypotheses record that the original and the
glued bodies are not valid JSON. -/
theorem parseJson_nan_retry_fails (parseOk : String → Bool)
    (h1 : parseOk nanBody = false) (h2 : parseOk nanBodyGlued = false)
    (h3 : parseOk nanTailBody = false) :
    parseJsonAttempts parseOk 2 nanBody =
      ParseAttemptResult.parseErrorLogged nanBodyGlued ∧
    jsReplaceNan nanBody = nanBodyGlued ∧
    claimReplaceNan nanBody = nanBodyFixed ∧
    nanBodyGlued ≠ nanBodyFixed ∧
    (∀ fuel, parseJsonAttempts parseOk fuel nanTailBody =
      ParseAttemptResult.divergent) := by
  have e1 : jsReplaceNan nanBody = nanBodyGlued := by decide
  have e2 : containsNanToken nanBody = true := by decide
  have e3 : containsNanToken nanBodyGlued = false := by decide
  refine ⟨?_, e1, by decide, by decide, ?_⟩
  · simp [parseJsonAttempts, h1, h2, e1, e2, e3]
  · have efix : jsReplaceNan nanTailBody = nanTailBody := by decide
    have econt : containsNanToken nanTailBody = true := by decide
    intro fuel
    induction fuel with
    | zero => rfl
    | succ k ih => simp [parseJsonAttempts, h3, econt, efix, ih]

/-- Witness for `parseJson_nan_retry_fails` with `parseOk` constantly
false. -/
theorem parseJson_nan_retry_fails_witness :
    parseJsonAttempts (fun _ => false) 2 nanBody =
      ParseAttemptResult.parseErrorLogged nanBodyGlued ∧
    parseJsonAttempts (fun _ => false) 50 nanTailBody =
      ParseAttemptResult.divergent :=
  ⟨(parseJson_nan_retry_fails (fun _ => false) rfl rfl rfl).1,
   (parseJson_nan_retry_fails (fun _ => false) rfl rfl rfl).2.2.2.2 50⟩

end Solo
